import Mathlib

/-!
Verification of the goredis client (repository xuyu/goredis).

The development shallowly embeds the wire codec of `connection.go` and
`protocol.go`, the connection pool of `pool.go`, the transaction, pipeline
and publish/subscribe wrappers of `redis.go`, and the EOF retry logic of
`Redis.SendCommand`, and proves or refutes the frozen specification claims
about them.  Bytes are modelled as natural numbers, byte strings as
`List Nat`, Go `error` returns as `Except` values, and Go runtime panics
as a dedicated error constructor so that "returns an error" and "crashes"
stay distinguishable.
-/

namespace GoRedis

/-- Carriage return byte. -/
def CR : Nat := 13

/-- Line feed byte. -/
def LF : Nat := 10

/-- Little-endian decimal digits of `n` rendered to ASCII (least significant
first), with explicit fuel so the recursion is structural; `fuel ≥ n`
suffices.  Empty for `n = 0`. -/
def natDigitsAux : Nat → Nat → List Nat
  | 0, _ => []
  | _ + 1, 0 => []
  | fuel + 1, n + 1 => ((n + 1) % 10 + 48) :: natDigitsAux fuel ((n + 1) / 10)

/-- Decimal rendering of a natural number to ASCII bytes, as produced by
`strconv.Itoa` / `fmt.Fprintf "%d"` for nonnegative values: most significant
digit first, and `0` renders as the single byte for the digit zero. -/
def natDigits (n : Nat) : List Nat :=
  if n = 0 then [48] else (natDigitsAux n n).reverse

/-- Decimal rendering of a signed integer, as produced by `strconv.Itoa` /
`strconv.FormatInt`: a minus sign byte (45) before the digits when negative. -/
def intToBytes (i : Int) : List Nat :=
  if i < 0 then 45 :: natDigits i.natAbs else natDigits i.toNat

/-- Digit-accumulation loop of `strconv.ParseInt`: consume ASCII digits,
failing on any non-digit byte. -/
def parseDigitsAux : Nat → List Nat → Option Nat
  | acc, [] => some acc
  | acc, c :: cs =>
    if 48 ≤ c ∧ c ≤ 57 then parseDigitsAux (acc * 10 + (c - 48)) cs
    else none

/-- Digits-and-range stage of `strconv.ParseInt`: after the optional sign
byte has been stripped, require at least one digit, parse them, apply the
sign and check the signed 64-bit range. -/
def parseDecDigits (neg : Bool) (ds : List Nat) : Option Int :=
  if ds = [] then none
  else
    match parseDigitsAux 0 ds with
    | none => none
    | some n =>
      let v : Int := if neg then -(n : Int) else (n : Int)
      if -(2 ^ 63) ≤ v ∧ v < 2 ^ 63 then some v else none

/-- `strconv.ParseInt(s, 10, 64)` (and `strconv.Atoi` on a 64-bit platform):
an optional sign byte, one or more decimal digits, and a signed 64-bit
range check; any other input is an error, modelled as `none`. -/
def parseDec (l : List Nat) : Option Int :=
  match l with
  | [] => none
  | c :: cs =>
    if c = 45 then parseDecDigits true cs
    else if c = 43 then parseDecDigits false cs
    else parseDecDigits false (c :: cs)

/-- The `Reply` value of the goredis client (`redis.go`): a struct with a
type tag and one payload field per tag, where the `Bulk` and `Multi` fields
are nil-able Go slices.  The nil slice is modelled as `none`. -/
inductive Reply where
  | err : List Nat → Reply
  | status : List Nat → Reply
  | integer : Int → Reply
  | bulk : Option (List Nat) → Reply
  | multi : Option (List Reply) → Reply

/-- Concatenate the encodings of a list of replies, given the encoder for
the elements. -/
def encodeListWith (enc : Reply → List Nat) : List Reply → List Nat
  | [] => []
  | r :: rs => enc r ++ encodeListWith enc rs

/-- The server-side wire form of a reply, following the reply grammar of the
protocol with a structural depth fuel: type byte, header line terminated by
CR LF, then the payload (length-prefixed for Bulk, recursively encoded
elements for Multi, with the minus-one sentinel for the null Bulk and the
null Multi).  Fuel at least the nesting depth suffices; below it the Multi
payload is truncated, which the depth-bounded theorems never reach. -/
def encodeReplyF : Nat → Reply → List Nat
  | _, .err s => 45 :: s ++ [CR, LF]
  | _, .status s => 43 :: s ++ [CR, LF]
  | _, .integer i => 58 :: intToBytes i ++ [CR, LF]
  | _, .bulk none => 36 :: intToBytes (-1) ++ [CR, LF]
  | _, .bulk (some b) => 36 :: natDigits b.length ++ [CR, LF] ++ b ++ [CR, LF]
  | _, .multi none => 42 :: intToBytes (-1) ++ [CR, LF]
  | fuel, .multi (some rs) =>
    42 :: natDigits rs.length ++ [CR, LF] ++
      (match fuel with
       | 0 => []
       | fuel' + 1 => encodeListWith (encodeReplyF fuel') rs)

/-- Well-formedness of a reply value with respect to the wire grammar, with
the same structural depth fuel as `encodeReplyF`: line-based payloads
contain no LF byte, every length, count and integer fits the signed 64-bit
headers that the client parses with `strconv`, and a Multi nesting deeper
than the fuel is rejected so that a well-formed reply is always encoded
without truncation. -/
def wfbF : Nat → Reply → Bool
  | fuel, r =>
    match r with
    | .err s => s.all (fun c => c != LF)
    | .status s => s.all (fun c => c != LF)
    | .integer i => decide (-(2 ^ 63) ≤ i) && decide (i < 2 ^ 63)
    | .bulk none => true
    | .bulk (some b) => decide ((b.length : Int) < 2 ^ 63)
    | .multi none => true
    | .multi (some rs) =>
      match fuel with
      | 0 => false
      | fuel' + 1 => decide ((rs.length : Int) < 2 ^ 63) && rs.all (wfbF fuel')

lemma wfbF_err (fuel : Nat) (s : List Nat) :
    wfbF fuel (.err s) = s.all (fun c => c != LF) := by cases fuel <;> rfl

lemma wfbF_status (fuel : Nat) (s : List Nat) :
    wfbF fuel (.status s) = s.all (fun c => c != LF) := by cases fuel <;> rfl

lemma wfbF_integer (fuel : Nat) (i : Int) :
    wfbF fuel (.integer i) = (decide (-(2 ^ 63) ≤ i) && decide (i < 2 ^ 63)) := by
  cases fuel <;> rfl

lemma wfbF_bulk_some (fuel : Nat) (b : List Nat) :
    wfbF fuel (.bulk (some b)) = decide ((b.length : Int) < 2 ^ 63) := by
  cases fuel <;> rfl

lemma wfbF_multi_zero (rs : List Reply) : wfbF 0 (.multi (some rs)) = false := rfl

lemma wfbF_multi_succ (fuel : Nat) (rs : List Reply) :
    wfbF (fuel + 1) (.multi (some rs)) =
      (decide ((rs.length : Int) < 2 ^ 63) && rs.all (wfbF fuel)) := rfl

lemma wfbF_bulk_none (fuel : Nat) : wfbF fuel (.bulk none) = true := by cases fuel <;> rfl

lemma wfbF_multi_none (fuel : Nat) : wfbF fuel (.multi none) = true := by cases fuel <;> rfl

/-- `bufio.Reader.ReadBytes` with the LF delimiter: return the prefix of the
stream up to and including the first LF together with the remaining bytes,
or `none` when the stream ends before an LF is found (bufio reports an
error in that case and `RecvReply` propagates it). -/
def readBytesLF : List Nat → Option (List Nat × List Nat)
  | [] => none
  | b :: rest =>
    if b = LF then some ([b], rest)
    else
      match readBytesLF rest with
      | none => none
      | some (line, r) => some (b :: line, r)

/-- Outcomes of a failed decode, separating genuine Go error returns from
runtime panics so that a crash is never mistaken for an error value:
`eof` models an input-exhaustion error from `bufio` or `io.ReadFull`,
`panicIdx` models a slice-bounds or index-out-of-range panic,
`atoiErr` a `strconv` parse failure, and `protocolErr` the
"redis protocol error" value for an unknown type byte. -/
inductive DecErr where
  | eof
  | panicIdx
  | atoiErr
  | protocolErr
deriving Repr, DecidableEq

/-- The element loop of the Multi branch of `RecvReply`: decode `n` replies
in sequence with the given one-reply decoder, threading the remaining
stream and propagating the first error. -/
def iterDecode (dec : List Nat → Except DecErr (Reply × List Nat)) :
    Nat → List Nat → Except DecErr (List Reply × List Nat)
  | 0, s => .ok ([], s)
  | n + 1, s =>
    match dec s with
    | .error e => .error e
    | .ok (r, s1) =>
      match iterDecode dec n s1 with
      | .error e => .error e
      | .ok (rs, s2) => .ok (r :: rs, s2)

/-- The switch of `RecvReply` on the first byte of the chopped header line:
server error, status, integer, bulk with its `size+2` read that never
inspects the trailing two bytes, and multi, whose nested decoding loop is
supplied by the caller so that `recvBody` stays non-recursive. -/
def recvBody (elems : Nat → List Nat → Except DecErr (List Reply × List Nat))
    (b : Nat) (body rest : List Nat) : Except DecErr (Reply × List Nat) :=
  if b = 45 then .ok (.err body, rest)
  else if b = 43 then .ok (.status body, rest)
  else if b = 58 then
    match parseDec body with
    | none => .error .atoiErr
    | some i => .ok (.integer i, rest)
  else if b = 36 then
    match parseDec body with
    | none => .error .atoiErr
    | some sz =>
      if sz < 0 then .ok (.bulk none, rest)
      else
        if rest.length < sz.toNat + 2 then .error .eof
        else .ok (.bulk (some (rest.take sz.toNat)), rest.drop (sz.toNat + 2))
  else if b = 42 then
    match parseDec body with
    | none => .error .atoiErr
    | some cnt =>
      if 0 ≤ cnt then
        match elems cnt.toNat rest with
        | .error e => .error e
        | .ok (rs, rest') => .ok (.multi (some rs), rest')
      else .ok (.multi none, rest)
  else .error .protocolErr

/-- `Connection.RecvReply` of `connection.go`, embedded over an explicit byte
stream.  Mirrors the source line by line: read one line up to LF, chop the
last two bytes (a panic when the line is shorter than two bytes), switch on
the first remaining byte (a panic when nothing remains), then dispatch
through `recvBody`, decoding `count` nested replies recursively for a
nonnegative Multi count.  The `fuel` argument only bounds the Multi nesting
depth, which the Go original bounds by the stream itself; `recvReply` below
instantiates it with the stream length. -/
def recvReplyF : Nat → List Nat → Except DecErr (Reply × List Nat)
  | fuel, s =>
    match readBytesLF s with
    | none => .error .eof
    | some (line, rest) =>
      if line.length < 2 then .error .panicIdx
      else
        match line.take (line.length - 2) with
        | [] => .error .panicIdx
        | b :: body =>
          recvBody
            (fun n r =>
              match fuel with
              | 0 => .error .eof
              | fuel' + 1 => iterDecode (recvReplyF fuel') n r)
            b body rest

/-- `Connection.RecvReply` on a byte stream.  The stream length plus one
over-counts the possible Multi nesting depth, so the fuel never runs out. -/
def recvReply (s : List Nat) : Except DecErr (Reply × List Nat) :=
  recvReplyF (s.length + 1) s

/-- `packCommand` of `protocol.go` specialised to byte-sequence arguments
(`[]byte` leaves pass through the `case []byte` branch unchanged): the
request header followed by one length-prefixed argument frame per argument,
accumulated left to right exactly as the Go loop writes into its buffer. -/
def packCommand (args : List (List Nat)) : List Nat :=
  args.foldl
    (fun buf a => buf ++ (36 :: natDigits a.length ++ [CR, LF] ++ a ++ [CR, LF]))
    (42 :: natDigits args.length ++ [CR, LF])

/-- The Multi-of-Bulks reply carrying the given byte sequences in order. -/
def multiOfBulks (args : List (List Nat)) : Reply :=
  .multi (some (args.map (fun a => .bulk (some a))))

/-! ### Decimal rendering and parsing round-trip -/

lemma natDigitsAux_eq_digits : ∀ fuel n, n ≤ fuel →
    natDigitsAux fuel n = (Nat.digits 10 n).map (fun d => d + 48) := by
  intro fuel
  induction fuel with
  | zero =>
    intro n hn
    have : n = 0 := Nat.le_zero.mp hn
    subst this
    simp [natDigitsAux]
  | succ f ih =>
    intro n hn
    match n with
    | 0 => simp [natDigitsAux]
    | m + 1 =>
      rw [show natDigitsAux (f + 1) (m + 1) =
            ((m + 1) % 10 + 48) :: natDigitsAux f ((m + 1) / 10) from rfl]
      rw [Nat.digits_def' (by norm_num : (1 : ℕ) < 10) (Nat.succ_pos m)]
      simp only [List.map_cons]
      congr 1
      exact ih ((m + 1) / 10) (by omega)

lemma natDigits_eq (n : Nat) (hn : n ≠ 0) :
    natDigits n = ((Nat.digits 10 n).reverse).map (fun d => d + 48) := by
  rw [natDigits, if_neg hn, natDigitsAux_eq_digits n n le_rfl, List.map_reverse]

lemma natDigits_mem {n c : Nat} (hc : c ∈ natDigits n) : 48 ≤ c ∧ c ≤ 57 := by
  by_cases hn : n = 0
  · subst hn
    simp [natDigits] at hc
    omega
  · rw [natDigits_eq n hn] at hc
    simp only [List.mem_map, List.mem_reverse] at hc
    obtain ⟨d, hd, rfl⟩ := hc
    have : d < 10 := Nat.digits_lt_base (by norm_num) hd
    omega

lemma natDigits_ne_nil (n : Nat) : natDigits n ≠ [] := by
  by_cases hn : n = 0
  · subst hn; simp [natDigits]
  · rw [natDigits_eq n hn]
    simp [Nat.digits_ne_nil_iff_ne_zero.mpr hn]

lemma parseDigitsAux_map : ∀ (ds : List Nat), (∀ d ∈ ds, d < 10) → ∀ acc,
    parseDigitsAux acc (ds.map (fun d => d + 48)) =
      some (ds.foldl (fun a d => a * 10 + d) acc) := by
  intro ds
  induction ds with
  | nil => intro _ acc; simp [parseDigitsAux]
  | cons d ds ih =>
    intro h acc
    have hd : d < 10 := h d (by simp)
    simp only [List.map_cons, parseDigitsAux]
    rw [if_pos (by omega)]
    have h48 : d + 48 - 48 = d := by omega
    rw [h48, ih (fun x hx => h x (by simp [hx]))]
    simp

lemma foldl_reverse_ofDigits : ∀ (L : List Nat) (acc : Nat),
    L.reverse.foldl (fun a d => a * 10 + d) acc =
      acc * 10 ^ L.length + Nat.ofDigits 10 L := by
  intro L
  induction L with
  | nil => intro acc; simp
  | cons d L ih =>
    intro acc
    simp only [List.reverse_cons, List.foldl_append, ih, List.foldl,
      Nat.ofDigits_cons, List.length_cons]
    ring

lemma parseDigitsAux_natDigits (n : Nat) :
    parseDigitsAux 0 (natDigits n) = some n := by
  by_cases hn : n = 0
  · subst hn
    simp [natDigits, parseDigitsAux]
  · rw [natDigits_eq n hn,
      parseDigitsAux_map ((Nat.digits 10 n).reverse)
        (fun d hd => Nat.digits_lt_base (by norm_num) (List.mem_reverse.mp hd)) 0,
      foldl_reverse_ofDigits]
    simp [Nat.ofDigits_digits]

lemma parseDecDigits_false {n : Nat} (hn : (n : Int) < 2 ^ 63) :
    parseDecDigits false (natDigits n) = some (n : Int) := by
  rw [parseDecDigits, if_neg (natDigits_ne_nil n), parseDigitsAux_natDigits]
  simp only [Bool.false_eq_true, if_false]
  rw [if_pos ⟨by omega, hn⟩]

lemma parseDecDigits_true {n : Nat} (hn : (n : Int) ≤ 2 ^ 63) :
    parseDecDigits true (natDigits n) = some (-(n : Int)) := by
  rw [parseDecDigits, if_neg (natDigits_ne_nil n), parseDigitsAux_natDigits]
  simp only [if_true]
  rw [if_pos ⟨by omega, by omega⟩]

lemma parseDec_natDigits {n : Nat} (hn : (n : Int) < 2 ^ 63) :
    parseDec (natDigits n) = some (n : Int) := by
  obtain ⟨c, cs, hcs⟩ : ∃ c cs, natDigits n = c :: cs := by
    cases h : natDigits n with
    | nil => exact absurd h (natDigits_ne_nil n)
    | cons c cs => exact ⟨c, cs, rfl⟩
  have hmem : 48 ≤ c ∧ c ≤ 57 := natDigits_mem (hcs ▸ List.mem_cons_self c cs)
  rw [hcs, parseDec]
  rw [if_neg (by omega : ¬ c = 45), if_neg (by omega : ¬ c = 43), ← hcs]
  exact parseDecDigits_false hn

lemma parseDec_intToBytes {i : Int} (h1 : -(2 ^ 63) ≤ i) (h2 : i < 2 ^ 63) :
    parseDec (intToBytes i) = some i := by
  by_cases hneg : i < 0
  · rw [intToBytes, if_pos hneg, parseDec]
    rw [if_pos rfl]
    rw [parseDecDigits_true (by omega : ((i.natAbs : Nat) : Int) ≤ 2 ^ 63)]
    congr 1
    omega
  · rw [intToBytes, if_neg hneg]
    have hi : ((i.toNat : Int)) = i := Int.toNat_of_nonneg (by omega)
    rw [parseDec_natDigits (by omega)]
    rw [hi]

lemma all_ne_LF {s : List Nat} (h : s.all (fun c => c != LF) = true) : LF ∉ s := by
  intro hm
  have := List.all_eq_true.mp h LF hm
  simp at this

lemma LF_not_mem_natDigits (n : Nat) : LF ∉ natDigits n := by
  intro h
  have h2 := natDigits_mem h
  simp [LF] at h2

lemma LF_not_mem_intToBytes (i : Int) : LF ∉ intToBytes i := by
  rw [intToBytes]
  split
  · intro h
    rcases List.mem_cons.mp h with h45 | hd
    · simp [LF] at h45
    · exact LF_not_mem_natDigits _ hd
  · exact LF_not_mem_natDigits _

/-! ### Header line reading -/

lemma readBytesLF_append {l : List Nat} (hl : LF ∉ l) (rest : List Nat) :
    readBytesLF (l ++ LF :: rest) = some (l ++ [LF], rest) := by
  induction l with
  | nil => simp [readBytesLF]
  | cons b bs ih =>
    have hb : ¬ b = LF := fun h => hl (h ▸ List.mem_cons_self b bs)
    have hbs : LF ∉ bs := fun h => hl (List.mem_cons_of_mem b h)
    simp only [List.cons_append, readBytesLF, if_neg hb, List.append_eq, ih hbs]

/-- Splitting off a well-terminated header line: on a stream that starts
with a non-LF type byte, an LF-free middle and a CR LF terminator,
`RecvReply` reaches the type-byte switch with exactly that byte, that
middle and the bytes after the terminator. -/
lemma recvReplyF_header (fuel : Nat) {a : Nat} (ha : ¬ a = LF) {mid : List Nat}
    (hmid : LF ∉ mid) {x : Nat} (hx : ¬ x = LF) (rest : List Nat) :
    recvReplyF fuel (a :: (mid ++ ([x, LF] ++ rest))) =
      recvBody
        (fun n r =>
          match fuel with
          | 0 => .error .eof
          | fuel' + 1 => iterDecode (recvReplyF fuel') n r)
        a mid rest := by
  have hl : LF ∉ a :: (mid ++ [x]) := by
    intro h
    rcases List.mem_cons.mp h with h1 | h2
    · exact ha h1.symm
    · rcases List.mem_append.mp h2 with h3 | h4
      · exact hmid h3
      · simp at h4
        exact hx h4.symm
  have hs : a :: (mid ++ ([x, LF] ++ rest)) = (a :: (mid ++ [x])) ++ LF :: rest := by
    simp
  rw [recvReplyF, hs, readBytesLF_append hl rest]
  have hline : (a :: (mid ++ [x])) ++ [LF] = a :: (mid ++ [x, LF]) := by simp
  rw [hline]
  dsimp only
  have hlen2 : (a :: (mid ++ [x, LF])).length = mid.length + 3 := by simp
  rw [hlen2, if_neg (by omega)]
  have htake : (a :: (mid ++ [x, LF])).take (mid.length + 3 - 2) = a :: mid := by
    have h1 : mid.length + 3 - 2 = mid.length + 1 := by omega
    rw [h1]
    simp only [List.take_succ_cons]
    congr 1
    exact List.take_left mid [x, LF]
  rw [htake]

/-! ### Decoding each encoded reply shape -/

lemma recv_encode_err {s : List Nat} (hs : LF ∉ s) (fuel fe : Nat) (rest : List Nat) :
    recvReplyF fuel (encodeReplyF fe (.err s) ++ rest) = .ok (.err s, rest) := by
  have henc : encodeReplyF fe (.err s) ++ rest = 45 :: (s ++ ([CR, LF] ++ rest)) := by
    simp [encodeReplyF]
  rw [henc, recvReplyF_header fuel (by simp [LF]) hs (by simp [CR, LF]) rest, recvBody, if_pos rfl]

lemma recv_encode_status {s : List Nat} (hs : LF ∉ s) (fuel fe : Nat) (rest : List Nat) :
    recvReplyF fuel (encodeReplyF fe (.status s) ++ rest) = .ok (.status s, rest) := by
  have henc : encodeReplyF fe (.status s) ++ rest = 43 :: (s ++ ([CR, LF] ++ rest)) := by
    simp [encodeReplyF]
  rw [henc, recvReplyF_header fuel (by simp [LF]) hs (by simp [CR, LF]) rest, recvBody,
    if_neg (by omega), if_pos rfl]

lemma recv_encode_integer {i : Int} (h1 : -(2 ^ 63) ≤ i) (h2 : i < 2 ^ 63)
    (fuel fe : Nat) (rest : List Nat) :
    recvReplyF fuel (encodeReplyF fe (.integer i) ++ rest) = .ok (.integer i, rest) := by
  have henc : encodeReplyF fe (.integer i) ++ rest = 58 :: (intToBytes i ++ ([CR, LF] ++ rest)) := by
    simp [encodeReplyF]
  rw [henc, recvReplyF_header fuel (by simp [LF]) (LF_not_mem_intToBytes i) (by simp [CR, LF]) rest, recvBody,
    if_neg (by omega), if_neg (by omega), if_pos rfl, parseDec_intToBytes h1 h2]

lemma recv_encode_bulk_none (fuel fe : Nat) (rest : List Nat) :
    recvReplyF fuel (encodeReplyF fe (.bulk none) ++ rest) = .ok (.bulk none, rest) := by
  have henc : encodeReplyF fe (.bulk none) ++ rest = 36 :: ([45, 49] ++ ([CR, LF] ++ rest)) := by
    simp [encodeReplyF, intToBytes, natDigits, natDigitsAux]
  rw [henc, recvReplyF_header fuel (by simp [LF]) (by simp [LF]) (by simp [CR, LF]) rest, recvBody,
    if_neg (by omega), if_neg (by omega), if_neg (by omega), if_pos rfl]
  have : parseDec [45, 49] = some (-1) := by decide
  rw [this]
  simp

lemma recv_encode_bulk_some {b : List Nat} (hb : (b.length : Int) < 2 ^ 63)
    (fuel fe : Nat) (rest : List Nat) :
    recvReplyF fuel (encodeReplyF fe (.bulk (some b)) ++ rest) = .ok (.bulk (some b), rest) := by
  have henc : encodeReplyF fe (.bulk (some b)) ++ rest =
      36 :: (natDigits b.length ++ ([CR, LF] ++ (b ++ ([CR, LF] ++ rest)))) := by
    simp [encodeReplyF]
  rw [henc, recvReplyF_header fuel (by simp [LF]) (LF_not_mem_natDigits _) (by simp [CR, LF]) _, recvBody,
    if_neg (by omega), if_neg (by omega), if_neg (by omega), if_pos rfl,
    parseDec_natDigits hb]
  dsimp only
  rw [if_neg (by omega : ¬ ((b.length : Int) < 0))]
  have htn : ((b.length : Int)).toNat = b.length := by omega
  have hlen : (b ++ ([CR, LF] ++ rest)).length = b.length + 2 + rest.length := by simp; omega
  rw [htn, hlen, if_neg (by omega)]
  have htake : (b ++ ([CR, LF] ++ rest)).take b.length = b :=
    List.take_left b ([CR, LF] ++ rest)
  have hdrop : (b ++ ([CR, LF] ++ rest)).drop (b.length + 2) = rest := by
    have h1 : b ++ ([CR, LF] ++ rest) = (b ++ [CR, LF]) ++ rest := by simp
    have h2 : (b ++ [CR, LF]).length = b.length + 2 := by simp
    rw [h1, ← h2]
    exact List.drop_left (b ++ [CR, LF]) rest
  rw [htake, hdrop]

lemma recv_encode_multi_none (fuel fe : Nat) (rest : List Nat) :
    recvReplyF fuel (encodeReplyF fe (.multi none) ++ rest) = .ok (.multi none, rest) := by
  have henc : encodeReplyF fe (.multi none) ++ rest = 42 :: ([45, 49] ++ ([CR, LF] ++ rest)) := by
    simp [encodeReplyF, intToBytes, natDigits, natDigitsAux]
  rw [henc, recvReplyF_header fuel (by simp [LF]) (by simp [LF]) (by simp [CR, LF]) rest, recvBody,
    if_neg (by omega), if_neg (by omega), if_neg (by omega), if_neg (by omega), if_pos rfl]
  have : parseDec [45, 49] = some (-1) := by decide
  rw [this]
  simp

/-- Decoding the concatenated encodings of a list of replies with a decoder
known to round-trip each element. -/
lemma iterDecode_encodeList (dec : List Nat → Except DecErr (Reply × List Nat))
    (e : Reply → List Nat) :
    ∀ (rs : List Reply) (rest : List Nat),
      (∀ r ∈ rs, ∀ rest2, dec (e r ++ rest2) = .ok (r, rest2)) →
      iterDecode dec rs.length (encodeListWith e rs ++ rest) = .ok (rs, rest) := by
  intro rs
  induction rs with
  | nil => intro rest _; simp [encodeListWith, iterDecode]
  | cons r rs ih =>
    intro rest h
    have hr := h r (List.mem_cons_self r rs) (encodeListWith e rs ++ rest)
    have hs : encodeListWith e (r :: rs) ++ rest = e r ++ (encodeListWith e rs ++ rest) := by
      simp [encodeListWith]
    simp only [List.length_cons, iterDecode, hs, hr,
      ih rest (fun x hx rest2 => h x (List.mem_cons_of_mem r hx) rest2)]

lemma encodeListWith_mem_length (e : Reply → List Nat) {r : Reply} :
    ∀ {rs : List Reply}, r ∈ rs → (e r).length ≤ (encodeListWith e rs).length := by
  intro rs
  induction rs with
  | nil => intro h; simp at h
  | cons x xs ih =>
    intro h
    rcases List.mem_cons.mp h with h1 | h2
    · subst h1; simp [encodeListWith]
    · calc (e r).length ≤ (encodeListWith e xs).length := ih h2
        _ ≤ (encodeListWith e (x :: xs)).length := by simp [encodeListWith]

/-- Round-trip through the wire: a well-formed reply encoded by the grammar
and decoded by `RecvReply` yields the reply back and consumes exactly its
own bytes, for any decoder fuel at least the length of the encoding. -/
theorem recvReplyF_encodeReplyF :
    ∀ (fe : Nat) (r : Reply), wfbF fe r = true →
      ∀ (fuel : Nat) (rest : List Nat), (encodeReplyF fe r).length ≤ fuel →
        recvReplyF fuel (encodeReplyF fe r ++ rest) = .ok (r, rest) := by
  intro fe
  induction fe with
  | zero =>
    intro r hwf fuel rest _
    match r with
    | .err s =>
      exact recv_encode_err (all_ne_LF (by rw [← wfbF_err 0 s]; exact hwf)) fuel 0 rest
    | .status s =>
      exact recv_encode_status (all_ne_LF (by rw [← wfbF_status 0 s]; exact hwf)) fuel 0 rest
    | .integer i =>
      rw [wfbF_integer] at hwf
      simp only [Bool.and_eq_true, decide_eq_true_eq] at hwf
      exact recv_encode_integer hwf.1 hwf.2 fuel 0 rest
    | .bulk none => exact recv_encode_bulk_none fuel 0 rest
    | .bulk (some b) =>
      rw [wfbF_bulk_some] at hwf
      simp only [decide_eq_true_eq] at hwf
      exact recv_encode_bulk_some hwf fuel 0 rest
    | .multi none => exact recv_encode_multi_none fuel 0 rest
    | .multi (some rs) =>
      rw [wfbF_multi_zero] at hwf
      exact absurd hwf Bool.false_ne_true
  | succ f ih =>
    intro r hwf fuel rest hlen
    match r with
    | .err s =>
      exact recv_encode_err (all_ne_LF (by rw [← wfbF_err (f + 1) s]; exact hwf)) fuel (f + 1) rest
    | .status s =>
      exact recv_encode_status (all_ne_LF (by rw [← wfbF_status (f + 1) s]; exact hwf))
        fuel (f + 1) rest
    | .integer i =>
      rw [wfbF_integer] at hwf
      simp only [Bool.and_eq_true, decide_eq_true_eq] at hwf
      exact recv_encode_integer hwf.1 hwf.2 fuel (f + 1) rest
    | .bulk none => exact recv_encode_bulk_none fuel (f + 1) rest
    | .bulk (some b) =>
      rw [wfbF_bulk_some] at hwf
      simp only [decide_eq_true_eq] at hwf
      exact recv_encode_bulk_some hwf fuel (f + 1) rest
    | .multi none => exact recv_encode_multi_none fuel (f + 1) rest
    | .multi (some rs) =>
      rw [wfbF_multi_succ] at hwf
      simp only [Bool.and_eq_true, decide_eq_true_eq, List.all_eq_true] at hwf
      obtain ⟨hcnt, helems⟩ := hwf
      have henc : encodeReplyF (f + 1) (.multi (some rs)) =
          42 :: (natDigits rs.length ++ ([CR, LF] ++ encodeListWith (encodeReplyF f) rs)) := by
        simp [encodeReplyF]
      have hlen4 : (encodeReplyF (f + 1) (.multi (some rs))).length =
          3 + (natDigits rs.length).length + (encodeListWith (encodeReplyF f) rs).length := by
        rw [henc]; simp; omega
      obtain ⟨fuel2, rfl⟩ : ∃ fuel2, fuel = fuel2 + 1 := by
        have h1 : 1 ≤ (natDigits rs.length).length :=
          List.length_pos.mpr (natDigits_ne_nil rs.length)
        cases fuel with
        | zero => omega
        | succ fuel2 => exact ⟨fuel2, rfl⟩
      have hstream : encodeReplyF (f + 1) (.multi (some rs)) ++ rest =
          42 :: (natDigits rs.length ++
            ([CR, LF] ++ (encodeListWith (encodeReplyF f) rs ++ rest))) := by
        rw [henc]; simp
      rw [hstream,
        recvReplyF_header (fuel2 + 1) (by simp [LF]) (LF_not_mem_natDigits _) (by simp [CR, LF]) _, recvBody,
        if_neg (by omega), if_neg (by omega), if_neg (by omega), if_neg (by omega), if_pos rfl,
        parseDec_natDigits hcnt]
      dsimp only
      rw [if_pos (by omega : (0 : Int) ≤ (rs.length : Int))]
      have htn : ((rs.length : Int)).toNat = rs.length := by omega
      rw [htn]
      have hiter : iterDecode (recvReplyF fuel2) rs.length
          (encodeListWith (encodeReplyF f) rs ++ rest) = .ok (rs, rest) := by
        apply iterDecode_encodeList
        intro x hx rest2
        apply ih x (helems x hx) fuel2 rest2
        have hx1 : (encodeReplyF f x).length ≤ (encodeListWith (encodeReplyF f) rs).length :=
          encodeListWith_mem_length (encodeReplyF f) hx
        omega
      rw [hiter]

/-! ### Linking packCommand to the reply grammar -/

lemma packCommand_eq_encode (args : List (List Nat)) :
    packCommand args = encodeReplyF 1 (multiOfBulks args) := by
  have hfold : ∀ (l : List (List Nat)) (init : List Nat),
      l.foldl (fun buf a => buf ++ (36 :: natDigits a.length ++ [CR, LF] ++ a ++ [CR, LF])) init
        = init ++ encodeListWith (encodeReplyF 0) (l.map (fun a => Reply.bulk (some a))) := by
    intro l
    induction l with
    | nil => intro init; simp [encodeListWith]
    | cons a l ih =>
      intro init
      simp only [List.foldl_cons, List.map_cons, encodeListWith, ih]
      simp [encodeReplyF]
  rw [packCommand, hfold, multiOfBulks, encodeReplyF]
  simp

/-- C1: encoding an argument tuple of byte sequences with `packCommand` and
decoding the frame with `RecvReply` yields the Multi reply of Bulk replies
carrying exactly the original byte sequences in order (embedded CR, LF and
NUL bytes included), and consumes exactly the frame.  The hypotheses only
record that the argument count and each argument length fit the signed
64-bit headers, which Go slices always satisfy. -/
theorem C1_packCommand_roundtrip (args : List (List Nat)) (rest : List Nat)
    (hcnt : (args.length : Int) < 2 ^ 63)
    (hargs : ∀ a ∈ args, ((a.length : Nat) : Int) < 2 ^ 63) :
    recvReply (packCommand args ++ rest) = .ok (multiOfBulks args, rest) := by
  have hwf : wfbF 1 (multiOfBulks args) = true := by
    rw [multiOfBulks, wfbF_multi_succ]
    simp only [Bool.and_eq_true, decide_eq_true_eq, List.all_eq_true, List.length_map]
    refine ⟨hcnt, ?_⟩
    intro x hx
    simp only [List.mem_map] at hx
    obtain ⟨a, ha, rfl⟩ := hx
    rw [wfbF_bulk_some]
    simp only [decide_eq_true_eq]
    exact hargs a ha
  rw [packCommand_eq_encode, recvReply]
  apply recvReplyF_encodeReplyF 1 _ hwf
  simp only [List.length_append]
  omega

/-- Witness for C1 at the concrete tuple GET, CR LF NUL. -/
theorem C1_witness :
    recvReply (packCommand [[71, 69, 84], [13, 10, 0]]) =
      .ok (multiOfBulks [[71, 69, 84], [13, 10, 0]], []) := by
  have h := C1_packCommand_roundtrip [[71, 69, 84], [13, 10, 0]] [] (by decide) (by decide)
  simpa using h

/-- C5: the Null Bulk frame and the zero-length Bulk frame decode without
error to distinguishable Bulk values, and the Null Multi frame and the
empty Multi frame decode without error to distinguishable Multi values. -/
theorem C5_null_vs_empty :
    recvReply [36, 45, 49, 13, 10] = .ok (.bulk none, []) ∧
    recvReply [36, 48, 13, 10, 13, 10] = .ok (.bulk (some []), []) ∧
    Reply.bulk none ≠ Reply.bulk (some []) ∧
    recvReply [42, 45, 49, 13, 10] = .ok (.multi none, []) ∧
    recvReply [42, 48, 13, 10] = .ok (.multi (some []), []) ∧
    Reply.multi none ≠ Reply.multi (some []) :=
  ⟨rfl, rfl, by simp, rfl, rfl, by simp⟩

/-- C7: decoding a well-formed reply frame followed by arbitrary further
bytes consumes exactly the bytes of that reply — in particular, a Bulk of
declared length L consumes exactly its L payload bytes plus the trailing
two — and leaves the input positioned at the first byte that follows. -/
theorem C7_decode_consumes_exactly (fe : Nat) (r : Reply) (hwf : wfbF fe r = true)
    (rest : List Nat) :
    recvReply (encodeReplyF fe r ++ rest) = .ok (r, rest) := by
  rw [recvReply]
  apply recvReplyF_encodeReplyF fe r hwf
  simp only [List.length_append]
  omega

/-- Witness for C7 at a nested Multi frame with a binary Bulk payload and
one trailing byte left over. -/
theorem C7_witness :
    recvReply (encodeReplyF 2 (.multi (some [.bulk (some [0, 13, 10]), .integer (-5)])) ++ [65]) =
      .ok (.multi (some [.bulk (some [0, 13, 10]), .integer (-5)]), [65]) :=
  C7_decode_consumes_exactly 2 (.multi (some [.bulk (some [0, 13, 10]), .integer (-5)]))
    (by decide) [65]

/-! ### C8: malformed input handling -/

lemma readBytesLF_eq_none {s : List Nat} (h : LF ∉ s) : readBytesLF s = none := by
  induction s with
  | nil => rfl
  | cons b bs ih =>
    have hb : ¬ b = LF := fun hh => h (hh ▸ List.mem_cons_self b bs)
    rw [readBytesLF, if_neg hb, ih (fun hh => h (List.mem_cons_of_mem b hh))]

/-- C8 counterexample: on the two-byte stream consisting of a non-type byte
followed by LF, `RecvReply` does not return an error value but panics
(slice bounds out of range on the chopped header line), refuting the claim
that a first byte outside the five type bytes always yields an error
return. -/
theorem C8_counterexample :
    ¬ (∀ (s : List Nat) (b : Nat), s.head? = some b →
        b ∉ ([45, 43, 58, 36, 42] : List Nat) → recvReply s ≠ .error .panicIdx) := by
  intro h
  exact h [120, 10] 120 rfl (by decide) rfl

/-- C8 amended: `RecvReply` returns an error value (never a panic) when the
stream has no line terminator at all, when a complete header line of at
least three bytes starts with a byte that is none of the five type bytes,
when an integer, bulk or multi header of at least three bytes carries an
invalid decimal, and when a nonnegative bulk length exceeds the remaining
stream; a header line of fewer than three bytes instead panics, as the
counterexample records. -/
theorem C8_amended :
    (∀ s : List Nat, LF ∉ s → recvReply s = .error .eof) ∧
    (∀ (a x : Nat) (mid rest : List Nat), ¬ a = LF → LF ∉ mid → ¬ x = LF →
      a ∉ ([45, 43, 58, 36, 42] : List Nat) →
      recvReply (a :: (mid ++ ([x, LF] ++ rest))) = .error .protocolErr) ∧
    (∀ (x : Nat) (mid rest : List Nat), LF ∉ mid → ¬ x = LF → parseDec mid = none →
      recvReply (58 :: (mid ++ ([x, LF] ++ rest))) = .error .atoiErr ∧
      recvReply (36 :: (mid ++ ([x, LF] ++ rest))) = .error .atoiErr ∧
      recvReply (42 :: (mid ++ ([x, LF] ++ rest))) = .error .atoiErr) ∧
    (∀ (x : Nat) (mid rest : List Nat) (sz : Int), LF ∉ mid → ¬ x = LF →
      parseDec mid = some sz → 0 ≤ sz → rest.length < sz.toNat + 2 →
      recvReply (36 :: (mid ++ ([x, LF] ++ rest))) = .error .eof) := by
  refine ⟨?_, ?_, ?_, ?_⟩
  · intro s hs
    rw [recvReply, recvReplyF, readBytesLF_eq_none hs]
  · intro a x mid rest ha hmid hx hfive
    simp only [List.mem_cons, not_or] at hfive
    rw [recvReply, recvReplyF_header _ ha hmid hx rest, recvBody,
      if_neg (by omega), if_neg (by omega), if_neg (by omega), if_neg (by omega),
      if_neg (by omega)]
  · intro x mid rest hmid hx hdec
    refine ⟨?_, ?_, ?_⟩
    · rw [recvReply, recvReplyF_header _ (by simp [LF]) hmid hx rest, recvBody,
        if_neg (by omega), if_neg (by omega), if_pos rfl, hdec]
    · rw [recvReply, recvReplyF_header _ (by simp [LF]) hmid hx rest, recvBody,
        if_neg (by omega), if_neg (by omega), if_neg (by omega), if_pos rfl, hdec]
    · rw [recvReply, recvReplyF_header _ (by simp [LF]) hmid hx rest, recvBody,
        if_neg (by omega), if_neg (by omega), if_neg (by omega), if_neg (by omega),
        if_pos rfl, hdec]
  · intro x mid rest sz hmid hx hdec hnn hshort
    rw [recvReply, recvReplyF_header _ (by simp [LF]) hmid hx rest, recvBody,
      if_neg (by omega), if_neg (by omega), if_neg (by omega), if_pos rfl, hdec]
    dsimp only
    rw [if_neg (by omega), if_pos hshort]

/-- Witness for C8 amended at concrete malformed streams. -/
theorem C8_amended_witness :
    recvReply [97] = .error .eof ∧
    recvReply [120, 13, 10] = .error .protocolErr ∧
    recvReply [58, 97, 13, 10] = .error .atoiErr ∧
    recvReply [36, 53, 13, 10] = .error .eof := by
  refine ⟨?_, ?_, ?_, ?_⟩
  · exact C8_amended.1 [97] (by decide)
  · exact C8_amended.2.1 120 13 [] [] (by decide) (by decide) (by decide) (by decide)
  · exact (C8_amended.2.2.1 13 [97] [] (by decide) (by decide) (by decide)).1
  · exact C8_amended.2.2.2 13 [53] [] 5 (by decide) (by decide) (by decide)
      (by decide) (by decide)

/-! ### packArgs: reflection-driven argument flattening (protocol.go) -/

/-- A Go value as seen by the reflection walk of `packArgs`: a text string,
a byte slice, another slice, a map, or a scalar leaf that falls into the
default branch; slices and maps are nil-able, modelled with `Option`.  The
iteration order of a map is unspecified in Go, so the model receives the
map as key/value pairs in the order the runtime happens to produce. -/
inductive GoVal where
  | vstr : List Nat → GoVal
  | vbytes : Option (List Nat) → GoVal
  | vslice : Option (List GoVal) → GoVal
  | vmap : Option (List (GoVal × GoVal)) → GoVal
  | vint : Int → GoVal

/-- `packArgs` of `protocol.go`: walk the items, skipping nil slices and
nil maps, passing a byte slice through as one string argument, expanding
any other slice element by element, expanding a map to alternating
key/value pairs, skipping an empty top-level string, and appending every
other value unchanged — with the same grow-by-append accumulator as the Go
loop. -/
def packArgs (items : List GoVal) : List GoVal :=
  items.foldl
    (fun args item =>
      match item with
      | .vbytes none => args
      | .vbytes (some b) => args ++ [.vstr b]
      | .vslice none => args
      | .vslice (some l) => l.foldl (fun a x => a ++ [x]) args
      | .vmap none => args
      | .vmap (some kvs) => kvs.foldl (fun a kv => a ++ [kv.1, kv.2]) args
      | .vstr s => if s = [] then args else args ++ [.vstr s]
      | .vint i => args ++ [.vint i])
    []

lemma foldl_append_elems : ∀ (l : List GoVal) (args : List GoVal),
    l.foldl (fun a x => a ++ [x]) args = args ++ l := by
  intro l
  induction l with
  | nil => intro args; simp
  | cons x xs ih => intro args; simp [ih]

lemma foldl_append_pairs : ∀ (kvs : List (GoVal × GoVal)) (args : List GoVal),
    kvs.foldl (fun a kv => a ++ [kv.1, kv.2]) args =
      args ++ (kvs.map (fun kv => [kv.1, kv.2])).flatten := by
  intro kvs
  induction kvs with
  | nil => intro args; simp
  | cons kv kvs ih => intro args; simp [ih]

lemma packArgs_append_last (xs : List GoVal) (item : GoVal) :
    packArgs (xs ++ [item]) =
      (fun args item =>
        match item with
        | .vbytes none => args
        | .vbytes (some b) => args ++ [.vstr b]
        | .vslice none => args
        | .vslice (some l) => l.foldl (fun a x => a ++ [x]) args
        | .vmap none => args
        | .vmap (some kvs) => kvs.foldl (fun a kv => a ++ [kv.1, kv.2]) args
        | .vstr s => if s = [] then args else args ++ [.vstr s]
        | .vint i => args ++ [.vint i]) (packArgs xs) item := by
  rw [packArgs, List.foldl_append]
  rfl

/-- C9: in any argument position, an ordered-sequence argument expands to
its elements in order, a mapping argument expands to alternating key/value
pairs, nil nested collections and the top-level empty text string are
skipped, and a byte-sequence argument passes through as a single argument
(converted to a string) rather than being expanded element-wise. -/
theorem C9_packArgs_flattening (xs : List GoVal) :
    (∀ l, packArgs (xs ++ [.vslice (some l)]) = packArgs xs ++ l) ∧
    (∀ kvs, packArgs (xs ++ [.vmap (some kvs)]) =
      packArgs xs ++ (kvs.map (fun kv => [kv.1, kv.2])).flatten) ∧
    packArgs (xs ++ [.vslice none]) = packArgs xs ∧
    packArgs (xs ++ [.vmap none]) = packArgs xs ∧
    packArgs (xs ++ [.vbytes none]) = packArgs xs ∧
    packArgs (xs ++ [.vstr []]) = packArgs xs ∧
    (∀ b, packArgs (xs ++ [.vbytes (some b)]) = packArgs xs ++ [.vstr b]) := by
  refine ⟨?_, ?_, ?_, ?_, ?_, ?_, ?_⟩
  · intro l
    rw [packArgs_append_last]
    exact foldl_append_elems l (packArgs xs)
  · intro kvs
    rw [packArgs_append_last]
    exact foldl_append_pairs kvs (packArgs xs)
  · rw [packArgs_append_last]
  · rw [packArgs_append_last]
  · rw [packArgs_append_last]
  · rw [packArgs_append_last]; rfl
  · intro b
    rw [packArgs_append_last]

/-! ### Connection pool (pool.go) -/

/-- Connection identifier; the nil connection pointer is `none` at the
sites that can carry it. -/
abbrev Conn := Nat

/-- `ConnPool` of `pool.go`: the linked-list idle queue (front is the
oldest entry, back is the most recently returned), the active counter and
the closed flag; `MaxIdle` is the struct field of the same name. -/
structure ConnPool where
  MaxIdle : Nat
  idle : List Conn
  active : Int
  closed : Bool

/-- `NewConnPool`: empty idle list, zero counters, open. -/
def NewConnPool (maxidle : Nat) : ConnPool :=
  { MaxIdle := maxidle, idle := [], active := 0, closed := false }

/-- `ConnPool.Get`: bump the active counter, fail when the pool is closed,
otherwise take the back of the idle list or, when it is empty, dial; the
outcome of `p.Dial()` is supplied by the caller as `dial`, and a dial does
not touch the idle list. -/
def ConnPool.Get (p : ConnPool) (dial : Except Unit Conn) :
    ConnPool × Except Unit Conn :=
  let p1 := { p with active := p.active + 1 }
  if p1.closed then (p1, .error ())
  else
    match p1.idle.getLast? with
    | some c => ({ p1 with idle := p1.idle.dropLast }, .ok c)
    | none => (p1, dial)

/-- `ConnPool.Put`: decrement the active counter; when closed only close
the connection; ignore nil; when the idle list has reached `MaxIdle`,
remove the front (the oldest idle connection) before appending the
returned connection at the back. -/
def ConnPool.Put (p : ConnPool) (c : Option Conn) : ConnPool :=
  let p1 := { p with active := p.active - 1 }
  if p1.closed then p1
  else
    match c with
    | none => p1
    | some c =>
      if p1.MaxIdle ≤ p1.idle.length then { p1 with idle := p1.idle.tail ++ [c] }
      else { p1 with idle := p1.idle ++ [c] }

/-- `ConnPool.Close`: mark the pool closed (the connections of the idle
list are closed in place; the list itself is not emptied). -/
def ConnPool.Close (p : ConnPool) : ConnPool :=
  { p with closed := true }

/-- One pool operation with its environment-chosen outcome. -/
inductive PoolOp where
  | get : Except Unit Conn → PoolOp
  | put : Option Conn → PoolOp
  | close : PoolOp

/-- Apply one pool operation to the pool state. -/
def applyOp (p : ConnPool) : PoolOp → ConnPool
  | .get d => (p.Get d).1
  | .put c => p.Put c
  | .close => p.Close

/-- Apply a sequence of pool operations in order. -/
def applyOps (p : ConnPool) (ops : List PoolOp) : ConnPool :=
  ops.foldl applyOp p

lemma applyOp_MaxIdle (p : ConnPool) (op : PoolOp) :
    (applyOp p op).MaxIdle = p.MaxIdle := by
  match op with
  | .get d =>
    rw [applyOp, ConnPool.Get]
    dsimp only
    split
    · rfl
    · split <;> rfl
  | .put c =>
    rw [applyOp]
    unfold ConnPool.Put
    dsimp only
    split
    · rfl
    · match c with
      | none => rfl
      | some c => dsimp only; split <;> rfl
  | .close => rfl

lemma applyOp_idle_le (p : ConnPool) (op : PoolOp) (hmax : 1 ≤ p.MaxIdle)
    (h : p.idle.length ≤ p.MaxIdle) : (applyOp p op).idle.length ≤ p.MaxIdle := by
  match op with
  | .get d =>
    rw [applyOp, ConnPool.Get]
    dsimp only
    split
    · exact h
    · split
      · dsimp only
        calc p.idle.dropLast.length ≤ p.idle.length := by
              rw [List.length_dropLast]; omega
          _ ≤ p.MaxIdle := h
      · exact h
  | .put c =>
    rw [applyOp]
    unfold ConnPool.Put
    dsimp only
    split
    · exact h
    · match c with
      | none => exact h
      | some c =>
        dsimp only
        split
        · simp only [List.length_append, List.length_tail, List.length_cons,
            List.length_nil]
          omega
        · rename_i hroom
          simp only [List.length_append, List.length_cons, List.length_nil]
          omega
  | .close => exact h

/-- C10: starting from a freshly created pool with `MaxIdle` at least one,
any sequence of Get, Put and Close operations leaves at most `MaxIdle`
idle connections, and a Put into a full idle list evicts the oldest idle
connection (the list front) before appending the returned one at the
back. -/
theorem C10_pool_idle_bound (maxidle : Nat) (hmax : 1 ≤ maxidle) (ops : List PoolOp) :
    (applyOps (NewConnPool maxidle) ops).idle.length ≤ maxidle ∧
    (∀ (p : ConnPool) (c : Conn), ¬ p.closed → p.idle.length = p.MaxIdle →
      (p.Put (some c)).idle = p.idle.tail ++ [c]) := by
  constructor
  · have hgen : ∀ (ops : List PoolOp) (p : ConnPool), 1 ≤ p.MaxIdle →
        p.idle.length ≤ p.MaxIdle → (applyOps p ops).idle.length ≤ p.MaxIdle := by
      intro ops
      induction ops with
      | nil => intro p _ h; exact h
      | cons op ops ih =>
        intro p hm h
        rw [applyOps, List.foldl_cons]
        have h1 := ih (applyOp p op) (by rw [applyOp_MaxIdle]; exact hm)
          (by rw [applyOp_MaxIdle]; exact applyOp_idle_le p op hm h)
        rw [applyOp_MaxIdle] at h1
        exact h1
    exact hgen ops (NewConnPool maxidle) hmax (by simp [NewConnPool])
  · intro p c hopen hfull
    unfold ConnPool.Put
    dsimp only
    rw [if_neg hopen, if_pos (by omega)]

/-- Witness for C10 at a concrete pool of capacity one and a concrete
operation sequence that exercises dial, reuse, re-pool and eviction. -/
theorem C10_witness :
    (applyOps (NewConnPool 1)
      [.get (.ok 7), .put (some 7), .get (.ok 8), .put (some 9), .put (some 10)]).idle.length
        ≤ 1 ∧
    (ConnPool.Put { MaxIdle := 1, idle := [4], active := 1, closed := false }
      (some 6)).idle = [6] :=
  ⟨(C10_pool_idle_bound 1 (by decide)
      [.get (.ok 7), .put (some 7), .get (.ok 8), .put (some 9), .put (some 10)]).1,
   (C10_pool_idle_bound 1 (by decide) []).2
      { MaxIdle := 1, idle := [4], active := 1, closed := false } 6
      (by decide) (by decide)⟩

/-! ### Transaction EXEC (redis package variants, redis.go:980-994) -/

/-- `Transaction.Exec` of the `redis` package variants: after sending EXEC,
read `queued` replies, collecting them into a slice created with
`make([]interface{}, t.queued)` and then grown with `append` — kept exactly
as the source has it, so the `make` prefills the result with `queued` nil
interface values (modelled as `none`) and every `append` adds one more
element.  `recv` supplies the outcome of the i-th `recvConnectionReply`
call; an error outcome is appended to the result just like a reply. -/
def Transaction.ExecOld (queued : Nat) (recv : Nat → Except Unit Reply) :
    List (Option (Except Unit Reply)) :=
  (List.range queued).foldl (fun result i => result ++ [some (recv i)])
    (List.replicate queued none)

lemma foldl_append_length {α β : Type} (g : β → α) :
    ∀ (l : List β) (init : List α),
      (l.foldl (fun r i => r ++ [g i]) init).length = init.length + l.length := by
  intro l
  induction l with
  | nil => intro init; simp
  | cons x xs ih => intro init; simp [ih]; omega

/-- C2: on a transaction with one QUEUED command whose reply arrives as a
Status OK, `Exec` of the `redis` package variants returns a slice of
length two — a leading nil interface value from the `make`, then the
reply — and in general the result has length `2 * queued` instead of
`queued`: the claimed length-n sequence of replies is not what the code
produces. -/
theorem C2_exec_make_append_bug :
    Transaction.ExecOld 1 (fun _ => .ok (.status [79, 75])) =
      [none, some (.ok (.status [79, 75]))] ∧
    (∀ (queued : Nat) (recv : Nat → Except Unit Reply),
      (Transaction.ExecOld queued recv).length = 2 * queued) := by
  constructor
  · rfl
  · intro queued recv
    rw [Transaction.ExecOld, foldl_append_length]
    simp
    omega

/-! ### Ordinary-command send and EOF retry (redis.go) -/

/-- An I/O failure: the distinguished clean EOF, or any other error. -/
inductive IOErr where
  | eofErr
  | other : Nat → IOErr
deriving Repr, DecidableEq

/-- Primitive network steps a command execution performs, in order:
sending a command frame, receiving one reply, and `openConnection` (a TCP
dial followed by the AUTH/SELECT handshake of redis.go:1469-1500, taken as
one step whose outcome the environment chooses). -/
inductive NetAct where
  | actSend
  | actRecv
  | actDial
deriving Repr, DecidableEq

/-- The environment-chosen outcomes of the successive primitive steps a
single `SendCommand` call can reach, in control-flow order: the first send
on the pooled connection, the redial after a send EOF, the resend on that
fresh connection, the first receive, the redial after a receive EOF, the
resend, and the final receive. -/
structure Script where
  send1 : Option IOErr
  dial1 : Except IOErr Unit
  send2 : Option IOErr
  recv1 : Except IOErr Reply
  dial2 : Except IOErr Unit
  send3 : Option IOErr
  recv2 : Except IOErr Reply

/-- Receive phase of `Redis.SendCommand` (goredis, redis.go:1520-1534):
receive; on EOF redial once, resend, and return the final receive outcome;
any other receive error propagates. -/
def recvPhase (sc : Script) (log : List NetAct) :
    Except IOErr Reply × List NetAct :=
  match sc.recv1 with
  | .ok rp => (.ok rp, log ++ [.actRecv])
  | .error e =>
    if e = .eofErr then
      match sc.dial2 with
      | .error e2 => (.error e2, log ++ [.actRecv, .actDial])
      | .ok _ =>
        match sc.send3 with
        | some e3 => (.error e3, log ++ [.actRecv, .actDial, .actSend])
        | none => (sc.recv2, log ++ [.actRecv, .actDial, .actSend, .actRecv])
    else (.error e, log ++ [.actRecv])

/-- `Redis.SendCommand` of goredis (redis.go:1502-1535), for a call that
received a pooled connection: send; on a send EOF redial once and resend,
propagating any error of those two steps; then run the receive phase.
The returned action list records each primitive step in execution order. -/
def Redis.SendCommandM (sc : Script) : Except IOErr Reply × List NetAct :=
  match sc.send1 with
  | none => recvPhase sc [.actSend]
  | some e =>
    if e = .eofErr then
      match sc.dial1 with
      | .error e2 => (.error e2, [.actSend, .actDial])
      | .ok _ =>
        match sc.send2 with
        | some e3 => (.error e3, [.actSend, .actDial, .actSend])
        | none => recvPhase sc [.actSend, .actDial, .actSend]
    else (.error e, [.actSend])

/-- `Redis.sendCommand` of the `redis` package variant (redis.go:542-558):
send; on a send EOF dial a replacement connection but do not resend — when
the redial succeeds the function returns a nil reply together with a nil
error, because the redial overwrote `err`; a send error other than EOF
propagates; otherwise receive once, with no retry on any receive error. -/
def Redis.sendCommandOld (send1 : Option IOErr) (dial : Except IOErr Unit)
    (recv : Except IOErr Reply) : Except IOErr (Option Reply) × List NetAct :=
  match send1 with
  | some e =>
    if e = .eofErr then
      match dial with
      | .error e2 => (.error e2, [.actSend, .actDial])
      | .ok _ => (.ok none, [.actSend, .actDial])
    else (.error e, [.actSend])
  | none =>
    match recv with
    | .ok rp => (.ok (some rp), [.actSend, .actRecv])
    | .error e => (.error e, [.actSend, .actRecv])

/-- C3: in the `redis` package variant, when the send fails with EOF and
the redial (with handshake) succeeds, `sendCommand` performs no resend —
the action log ends at the dial — and returns a nil reply with a nil
error, although a reply was available for the taking: the claimed
resend-and-complete retry does not happen in this variant.  (The goredis
`Redis.SendCommand` variant does retry as claimed; see
`SendCommand_retry_policy`.) -/
theorem C3_sendCommand_no_resend :
    Redis.sendCommandOld (some .eofErr) (.ok ()) (.ok (.status [79, 75])) =
      (.ok none, [.actSend, .actDial]) := rfl

/-- The goredis `Redis.SendCommand` retry policy, case by case: no error
means one send and one receive with no dial; a non-EOF send error
propagates immediately; a send EOF triggers exactly one redial and one
resend, any error of which propagates; a receive EOF triggers exactly one
redial and one resend, and the final receive outcome — success or any
error — is returned without further retry. -/
theorem SendCommand_retry_policy (sc : Script) :
    (sc.send1 = none → sc.recv1 = .ok rp →
      Redis.SendCommandM sc = (.ok rp, [.actSend, .actRecv])) ∧
    (∀ c, sc.send1 = some (.other c) →
      Redis.SendCommandM sc = (.error (.other c), [.actSend])) ∧
    (∀ e2, sc.send1 = some .eofErr → sc.dial1 = .error e2 →
      Redis.SendCommandM sc = (.error e2, [.actSend, .actDial])) ∧
    (∀ e3, sc.send1 = some .eofErr → sc.dial1 = .ok () → sc.send2 = some e3 →
      Redis.SendCommandM sc = (.error e3, [.actSend, .actDial, .actSend])) ∧
    (sc.send1 = some .eofErr → sc.dial1 = .ok () → sc.send2 = none → sc.recv1 = .ok rp →
      Redis.SendCommandM sc = (.ok rp, [.actSend, .actDial, .actSend, .actRecv])) ∧
    (∀ c, sc.send1 = none → sc.recv1 = .error (.other c) →
      Redis.SendCommandM sc = (.error (.other c), [.actSend, .actRecv])) ∧
    (∀ e2, sc.send1 = none → sc.recv1 = .error .eofErr → sc.dial2 = .error e2 →
      Redis.SendCommandM sc = (.error e2, [.actSend, .actRecv, .actDial])) ∧
    (∀ e3, sc.send1 = none → sc.recv1 = .error .eofErr → sc.dial2 = .ok () →
      sc.send3 = some e3 →
      Redis.SendCommandM sc = (.error e3, [.actSend, .actRecv, .actDial, .actSend])) ∧
    (sc.send1 = none → sc.recv1 = .error .eofErr → sc.dial2 = .ok () → sc.send3 = none →
      Redis.SendCommandM sc =
        (sc.recv2, [.actSend, .actRecv, .actDial, .actSend, .actRecv])) := by
  refine ⟨?_, ?_, ?_, ?_, ?_, ?_, ?_, ?_, ?_⟩
  · intro h1 h2
    simp [Redis.SendCommandM, recvPhase, h1, h2]
  · intro c h1
    simp [Redis.SendCommandM, h1]
  · intro e2 h1 h2
    simp [Redis.SendCommandM, h1, h2]
  · intro e3 h1 h2 h3
    simp [Redis.SendCommandM, h1, h2, h3]
  · intro h1 h2 h3 h4
    simp [Redis.SendCommandM, recvPhase, h1, h2, h3, h4]
  · intro c h1 h2
    simp [Redis.SendCommandM, recvPhase, h1, h2]
  · intro e2 h1 h2 h3
    simp [Redis.SendCommandM, recvPhase, h1, h2, h3]
  · intro e3 h1 h2 h3 h4
    simp [Redis.SendCommandM, recvPhase, h1, h2, h3, h4]
  · intro h1 h2 h3 h4
    simp [Redis.SendCommandM, recvPhase, h1, h2, h3, h4]

/-! ### Pipeline close (goredis, redis.go:3344-3395) -/

/-- Observable actions of `Pipelined.Close`: closing the underlying
network connection, and handing the Session back to the pool. -/
inductive PipAct where
  | closeConn
  | repool
deriving Repr, DecidableEq

/-- `Pipelined` of goredis: the `times` counter, incremented per sent
command and decremented per received reply (the Session and client
pointers carry no state the claims need). -/
structure Pipelined where
  times : Int
deriving Repr, DecidableEq

/-- `Pipelined.Command`: send the packed command; increment `times` only
when the send succeeds. -/
def Pipelined.Command (p : Pipelined) (send : Option IOErr) :
    Pipelined × Option IOErr :=
  match send with
  | none => ({ times := p.times + 1 }, none)
  | some e => (p, some e)

/-- `Pipelined.Receive`: receive one reply; decrement `times` only when
the receive succeeds. -/
def Pipelined.Receive (p : Pipelined) (recv : Except IOErr Reply) :
    Pipelined × Except IOErr Reply :=
  match recv with
  | .ok rp => ({ times := p.times - 1 }, .ok rp)
  | .error e => (p, .error e)

/-- `Pipelined.Close` (redis.go:3358-3362): `defer` the return of the
Session to the pool, zero the counter, close the underlying connection;
the deferred re-pool then runs.  The state of the counter is never
consulted. -/
def Pipelined.Close (p : Pipelined) : Pipelined × List PipAct :=
  ({ times := 0 }, [.closeConn, .repool])

/-- C4 counterexample: `Pipelined.Close` re-pools the Session on every
call, so re-pooling does not imply that the send count equalled the
receive count — refuted at a pipeline with one outstanding reply. -/
theorem C4_counterexample :
    ¬ (∀ p : Pipelined, PipAct.repool ∈ (Pipelined.Close p).2 → p.times = 0) := by
  intro h
  have h1 := h { times := 1 } (by decide)
  exact absurd h1 (by decide)

/-- C4 amended: `Pipelined.Close` is oblivious to the send/receive
counter: for every pipeline state it closes the underlying connection,
resets the counter to zero, and returns the (closed) Session to the pool,
in that order. -/
theorem C4_close_unconditional (p : Pipelined) :
    Pipelined.Close p = ({ times := 0 }, [.closeConn, .repool]) := rfl

/-! ### Publish/subscribe reception (goredis, redis.go:3210-3314) -/

/-- Byte string of an ASCII literal, for the verb constants. -/
def bs (s : String) : List Nat := s.toList.map Char.toNat

/-- `strings.ToLower` restricted to the ASCII range the verbs use. -/
def goToLower (s : List Nat) : List Nat :=
  s.map (fun c => if 65 ≤ c ∧ c ≤ 90 then c + 32 else c)

/-- Failure outcomes of `PubSub.Recv`, mirroring the Go error values:
an index panic on a missing Multi element (the Go code indexes `rp.Multi`
without a length or nil check), the server-reported error text surfaced by
`StringValue`/`IntegerValue` on an Error reply, the two reply-type
mismatch errors, and the `pubsub protocol error` value. -/
inductive PSErr where
  | panicIdx
  | fromServer : List Nat → PSErr
  | notBulk
  | notInteger
  | pubsubProtocol
deriving Repr, DecidableEq

/-- `Reply.StringValue` (redis.go:1127-1138): error replies surface their
text, a nil Bulk becomes the empty string, a Bulk yields its bytes, any
other tag is a type mismatch. -/
def Reply.StringValue : Reply → Except PSErr (List Nat)
  | .err e => .error (.fromServer e)
  | .bulk none => .ok []
  | .bulk (some b) => .ok b
  | _ => .error .notBulk

/-- `Reply.IntegerValue` (redis.go:1072-1080). -/
def Reply.IntegerValue : Reply → Except PSErr Int
  | .err e => .error (.fromServer e)
  | .integer i => .ok i
  | _ => .error .notInteger

/-- `rp.Multi[i]` in Go: an index into the Multi payload that panics when
the reply is not a Multi (the nil `Multi` field of the struct), when the
Multi is null, or when the index is out of range. -/
def multiGet (rp : Reply) (i : Nat) : Except PSErr Reply :=
  match rp with
  | .multi (some rs) =>
    match rs.get? i with
    | some r => .ok r
    | none => .error .panicIdx
  | _ => .error .panicIdx

/-- The `PubSub` handle: the two subscription sets, modelling the
`map[string]bool` fields (a key is in the set exactly when the Go map
holds `true` for it, which is the only value ever stored). -/
structure PubSub where
  Patterns : Finset (List Nat)
  Channels : Finset (List Nat)
deriving DecidableEq

/-- `PubSub.Recv` (redis.go:3248-3314) applied to one received push frame:
read the verb from element 0, switch on its lowercase form; on the
(p)subscribe/(p)unsubscribe cases compare the verb case-sensitively to
decide between inserting and deleting the name in the corresponding set
and return verb, name and the running count rendered in decimal; on
pmessage and message return the frame fields; otherwise fail with the
pubsub protocol error.  The handle state is returned alongside so that a
mutation performed before a later failure is preserved, as in Go. -/
def PubSub.Recv (p : PubSub) (rp : Reply) :
    Except PSErr (List (List Nat)) × PubSub :=
  match multiGet rp 0 with
  | .error e => (.error e, p)
  | .ok r0 =>
    match r0.StringValue with
    | .error e => (.error e, p)
    | .ok cmd =>
      if goToLower cmd = bs "psubscribe" ∨ goToLower cmd = bs "punsubscribe" then
        match multiGet rp 1 with
        | .error e => (.error e, p)
        | .ok r1 =>
          match r1.StringValue with
          | .error e => (.error e, p)
          | .ok pat =>
            let p2 :=
              if cmd = bs "psubscribe" then { p with Patterns := insert pat p.Patterns }
              else { p with Patterns := p.Patterns.erase pat }
            match multiGet rp 2 with
            | .error e => (.error e, p2)
            | .ok r2 =>
              match r2.IntegerValue with
              | .error e => (.error e, p2)
              | .ok number => (.ok [cmd, pat, intToBytes number], p2)
      else if goToLower cmd = bs "subscribe" ∨ goToLower cmd = bs "unsubscribe" then
        match multiGet rp 1 with
        | .error e => (.error e, p)
        | .ok r1 =>
          match r1.StringValue with
          | .error e => (.error e, p)
          | .ok channel =>
            let p2 :=
              if cmd = bs "subscribe" then { p with Channels := insert channel p.Channels }
              else { p with Channels := p.Channels.erase channel }
            match multiGet rp 2 with
            | .error e => (.error e, p2)
            | .ok r2 =>
              match r2.IntegerValue with
              | .error e => (.error e, p2)
              | .ok number => (.ok [cmd, channel, intToBytes number], p2)
      else if goToLower cmd = bs "pmessage" then
        match multiGet rp 1 with
        | .error e => (.error e, p)
        | .ok r1 =>
          match r1.StringValue with
          | .error e => (.error e, p)
          | .ok pat =>
            match multiGet rp 2 with
            | .error e => (.error e, p)
            | .ok r2 =>
              match r2.StringValue with
              | .error e => (.error e, p)
              | .ok channel =>
                match multiGet rp 3 with
                | .error e => (.error e, p)
                | .ok r3 =>
                  match r3.StringValue with
                  | .error e => (.error e, p)
                  | .ok message => (.ok [cmd, pat, channel, message], p)
      else if goToLower cmd = bs "message" then
        match multiGet rp 1 with
        | .error e => (.error e, p)
        | .ok r1 =>
          match r1.StringValue with
          | .error e => (.error e, p)
          | .ok channel =>
            match multiGet rp 2 with
            | .error e => (.error e, p)
            | .ok r2 =>
              match r2.StringValue with
              | .error e => (.error e, p)
              | .ok message => (.ok [cmd, channel, message], p)
      else (.error .pubsubProtocol, p)

/-- C6 counterexample: a push frame whose first element is the verb
SUBSCRIBE in upper case — a verb other than the six lowercase ones — is
not rejected with the pubsub protocol error; it matches the subscribe case
through `ToLower`, then fails the case-sensitive comparison with
"subscribe" and so deletes the channel from the Channels set of the handle. -/
theorem C6_counterexample :
    (PubSub.Recv { Patterns := ∅, Channels := {bs "c"} }
        (.multi (some [.bulk (some (bs "SUBSCRIBE")), .bulk (some (bs "c")), .integer 1]))).1
      = .ok [bs "SUBSCRIBE", bs "c", bs "1"] ∧
    bs "c" ∈ ({bs "c"} : Finset (List Nat)) ∧
    bs "c" ∉ (PubSub.Recv { Patterns := ∅, Channels := {bs "c"} }
        (.multi (some [.bulk (some (bs "SUBSCRIBE")), .bulk (some (bs "c")),
          .integer 1]))).2.Channels := by
  refine ⟨rfl, by decide, by decide⟩

/-- C6 amended: on a push frame `[verb, name, count]` whose verb is
exactly one of the four lowercase subscription verbs, `Recv` updates the
matching set (insert on subscribe/psubscribe, erase on
unsubscribe/punsubscribe) and returns verb, name and the decimal count;
`[message, channel, payload]` and `[pmessage, pattern, channel, payload]`
frames return their fields unchanged; a frame whose verb lowercases to a
subscribe-family verb without being exactly that lowercase verb takes the
erase branch of that family; and only a verb whose lowercase form is none
of the six yields the pubsub protocol error, with both sets unchanged. -/
theorem C6_recv_cases (p : PubSub) :
    (∀ name n, PubSub.Recv p
        (.multi (some [.bulk (some (bs "subscribe")), .bulk (some name), .integer n])) =
      (.ok [bs "subscribe", name, intToBytes n],
        { p with Channels := insert name p.Channels })) ∧
    (∀ name n, PubSub.Recv p
        (.multi (some [.bulk (some (bs "unsubscribe")), .bulk (some name), .integer n])) =
      (.ok [bs "unsubscribe", name, intToBytes n],
        { p with Channels := p.Channels.erase name })) ∧
    (∀ name n, PubSub.Recv p
        (.multi (some [.bulk (some (bs "psubscribe")), .bulk (some name), .integer n])) =
      (.ok [bs "psubscribe", name, intToBytes n],
        { p with Patterns := insert name p.Patterns })) ∧
    (∀ name n, PubSub.Recv p
        (.multi (some [.bulk (some (bs "punsubscribe")), .bulk (some name), .integer n])) =
      (.ok [bs "punsubscribe", name, intToBytes n],
        { p with Patterns := p.Patterns.erase name })) ∧
    (∀ channel payload, PubSub.Recv p
        (.multi (some [.bulk (some (bs "message")), .bulk (some channel),
          .bulk (some payload)])) =
      (.ok [bs "message", channel, payload], p)) ∧
    (∀ pat channel payload, PubSub.Recv p
        (.multi (some [.bulk (some (bs "pmessage")), .bulk (some pat),
          .bulk (some channel), .bulk (some payload)])) =
      (.ok [bs "pmessage", pat, channel, payload], p)) ∧
    (∀ verb name n, goToLower verb = bs "subscribe" → ¬ verb = bs "subscribe" →
      PubSub.Recv p
        (.multi (some [.bulk (some verb), .bulk (some name), .integer n])) =
      (.ok [verb, name, intToBytes n], { p with Channels := p.Channels.erase name })) ∧
    (∀ verb rest, goToLower verb ∉
        [bs "psubscribe", bs "punsubscribe", bs "subscribe", bs "unsubscribe",
          bs "pmessage", bs "message"] →
      PubSub.Recv p (.multi (some (.bulk (some verb) :: rest))) =
        (.error .pubsubProtocol, p)) := by
  refine ⟨fun name n => rfl, fun name n => rfl, fun name n => rfl, fun name n => rfl,
    fun channel payload => rfl, fun pat channel payload => rfl, ?_, ?_⟩
  · intro verb name n hlow hne
    rw [PubSub.Recv]
    dsimp only [multiGet, List.get?, Reply.StringValue]
    rw [if_neg ?hps, if_pos (Or.inl hlow), if_neg hne]
    · rfl
    case hps =>
      rw [hlow]
      decide
  · intro verb rest hlow
    simp only [List.mem_cons, List.not_mem_nil, or_false, not_or] at hlow
    obtain ⟨h1, h2, h3, h4, h5, h6⟩ := hlow
    rw [PubSub.Recv]
    dsimp only [multiGet, List.get?, Reply.StringValue]
    rw [if_neg (by simp [h1, h2]), if_neg (by simp [h3, h4]), if_neg h5, if_neg h6]

/-- Witness for C6 amended: the subscribe and unknown-verb branches at a
concrete handle, channel and count. -/
theorem C6_recv_witness :
    PubSub.Recv { Patterns := ∅, Channels := ∅ }
        (.multi (some [.bulk (some (bs "subscribe")), .bulk (some (bs "c")), .integer 1])) =
      (.ok [bs "subscribe", bs "c", intToBytes 1],
        { Patterns := ∅, Channels := insert (bs "c") ∅ }) ∧
    PubSub.Recv { Patterns := ∅, Channels := ∅ }
        (.multi (some [.bulk (some (bs "hello"))])) =
      (.error .pubsubProtocol, { Patterns := ∅, Channels := ∅ }) :=
  ⟨(C6_recv_cases { Patterns := ∅, Channels := ∅ }).1 (bs "c") 1,
   (C6_recv_cases { Patterns := ∅, Channels := ∅ }).2.2.2.2.2.2.2 (bs "hello") []
     (by decide)⟩

end GoRedis
